/-
Verification of the recommendation engine of the personal e-book manager.

Shallow embedding of:
  * backend/src/entities/book.entity.ts        (Book, ReadingStatus, BookFormat)
  * backend/src/services/recommendations.service.ts
      (buildProfile, scoreBook, fetchExternalSuggestions, getRecommendations)
  * backend/src/services/google-books.service.ts (searchByGenre, mapVolume)

Modelling conventions:
  * JavaScript numbers are modelled as exact rationals (ℚ); the engine's
    arithmetic is +, *, /, √ and comparisons, and every claim is about the
    exact values.  The score `dot / sqrt(magSq)` is irrational in general, so
    a scored item carries the exact pair (dot, magSq) and theorem statements
    spell the score out as `(dot : ℝ) / Real.sqrt magSq` with the source's
    zero-magnitude guard.
  * A JavaScript `Map` is an insertion-ordered association list with unique
    keys: `mapSet` overwrites in place, otherwise appends; `mapGet` looks up.
  * `Array.prototype.sort` is stable (ES2019); a stable sort by a rational
    key in descending order is modelled by sorting index-element pairs by
    (key descending, index ascending), a linear order, which characterises
    the stable result uniquely.  All entries sorted by the engine share one
    profile magnitude, so comparing exact scores is comparing `dot` fields;
    the lemma `scorePos_iff` records the corresponding fact for the
    `score > 0` filters.
  * The external collaborator (Google Books) is a parameter
    `ext : String → Except Unit (List Volume)`: for each genre query it
    either yields the raw volume list or raises.  `searchByGenre` absorbs
    the failure into `[]` exactly as the source's try/catch does.
-/
import Mathlib

namespace EbookRec

/-- Reading lifecycle status, from `book.entity.ts` (`ReadingStatus`). -/
inductive ReadingStatus
  | unread
  | in_progress
  | finished
  | abandoned
deriving DecidableEq, Repr

/-- File format of a catalog item, from `book.entity.ts` (`BookFormat`). -/
inductive BookFormat
  | epub | mobi | pdf | azw | cbr | cbz | mp3 | m4b | other
deriving DecidableEq, Repr

/-- The string value of a `BookFormat` enum member (the enum values in the
source are exactly these lower-case strings). -/
def BookFormat.str : BookFormat → String
  | .epub => "epub"
  | .mobi => "mobi"
  | .pdf => "pdf"
  | .azw => "azw"
  | .cbr => "cbr"
  | .cbz => "cbz"
  | .mp3 => "mp3"
  | .m4b => "m4b"
  | .other => "other"

/-- A catalog item (`Book` entity), restricted to the fields the
recommendation engine reads.  `rating` is nullable in the source
(`number | null`), as are `isbn`, `genres` and `tags`; `title`, `author`,
`status` and `format` are non-nullable columns. -/
structure Book where
  id : String
  title : String
  author : String
  isbn : Option String
  genres : Option (List String)
  tags : Option (List String)
  status : ReadingStatus
  rating : Option ℚ
  format : BookFormat
deriving DecidableEq, Repr

/-- A raw Google Books volume (`GoogleBooksVolume.volumeInfo`), restricted to
the fields `mapVolume` reads that the engine later uses. -/
structure Volume where
  title : Option String
  authors : Option (List String)
  categories : Option (List String)
  industryIdentifiers : Option (List (String × String))
deriving DecidableEq, Repr

/-- The `Partial<Book>` produced by `GoogleBooksService.mapVolume`,
restricted to the fields the engine reads.  `mapVolume` never sets `id`,
`tags`, `status`, `rating` or `format`, so those fields do not exist here;
fields it does set but the engine ignores (description, publisher, year,
pages, cover) are omitted from the embedding. -/
structure PartialBook where
  title : Option String
  author : Option String
  genres : Option (List String)
  isbn : Option String
deriving DecidableEq, Repr

/-- `GoogleBooksService.mapVolume`: maps a raw volume to a `Partial<Book>`.
`isbn := isbn13 ?? isbn10`, `author := info.authors?.join(', ')`. -/
def mapVolume (v : Volume) : PartialBook :=
  let pick := fun (t : String) =>
    (((v.industryIdentifiers.getD []).find? (fun i => i.1 = t)).map (fun i => i.2))
  { title := v.title
    author := v.authors.map (fun as => String.intercalate ", " as)
    genres := v.categories
    isbn := (pick "ISBN_13").orElse (fun _ => pick "ISBN_10") }

/-- Common read-only view of `Book | Partial<Book>` exposing exactly the
fields `scoreBook` reads (TypeScript accesses them through `??` defaults). -/
structure ItemView where
  genres : Option (List String)
  tags : Option (List String)
  author : Option String
  format : Option BookFormat
deriving DecidableEq, Repr

/-- View of a full catalog `Book` (every field present). -/
def Book.toView (b : Book) : ItemView :=
  { genres := b.genres, tags := b.tags, author := some b.author,
    format := some b.format }

/-- View of an external `Partial<Book>`: `mapVolume` sets neither `tags` nor
`format`, so both are absent. -/
def PartialBook.toView (p : PartialBook) : ItemView :=
  { genres := p.genres, tags := none, author := p.author, format := none }

/-- `String.prototype.toLowerCase` (character-wise lower-casing), written
over the character list so that the kernel can evaluate it (the library
`String.toLower` is extensionally the same but does not reduce). -/
def jsToLower (s : String) : String := String.mk (s.data.map Char.toLower)

/-- `String.prototype.trim`: strip whitespace from both ends. -/
def jsTrim (s : String) : String :=
  String.mk (((s.data.dropWhile Char.isWhitespace).reverse.dropWhile
    Char.isWhitespace).reverse)

/-- `s.startsWith(pre)`. -/
def jsStartsWith (s pre : String) : Bool :=
  decide (s.data.take pre.data.length = pre.data)

/-- `s.slice(n)` on a string known to be ASCII up to position `n`: drop the
first `n` characters. -/
def jsDrop (s : String) (n : ℕ) : String := String.mk (s.data.drop n)

/-- `value.toLowerCase().trim()`, the normalisation applied to genre, tag and
author strings before composing a feature key. -/
def normVal (s : String) : String := jsTrim (jsToLower s)

/-- JavaScript truthiness of an optional string (`undefined`, `null` and the
empty string are falsy). -/
def truthy : Option String → Bool
  | none => false
  | some s => s ≠ ""

/-- A preference profile: the engine's `Map<string, number>`, modelled as an
insertion-ordered association list with unique keys. -/
abbrev Profile := List (String × ℚ)

/-- `Map.get`. -/
def mapGet (m : Profile) (k : String) : Option ℚ :=
  (m.find? (fun e => e.1 = k)).map (fun e => e.2)

/-- `Map.set`: overwrite in place if the key is present, else append. -/
def mapSet (m : Profile) (k : String) (v : ℚ) : Profile :=
  if m.any (fun e => e.1 = k) then
    m.map (fun e => if e.1 = k then (k, v) else e)
  else m ++ [(k, v)]

/-- The `add` closure of `buildProfile`:
`profile.set(key, (profile.get(key) ?? 0) + weight)`. -/
def profileAdd (m : Profile) (k : String) (w : ℚ) : Profile :=
  mapSet m k ((mapGet m k).getD 0 + w)

/-- `AUTHOR_BOOST = 1.5`. -/
def AUTHOR_BOOST : ℚ := 3 / 2

/-- `MIN_LOCAL_CANDIDATES = 3`. -/
def MIN_LOCAL_CANDIDATES : ℕ := 3

/-- `MIN_RATING = 3`. -/
def MIN_RATING : ℚ := 3

/-- `TOP_N = 12`. -/
def TOP_N : ℕ := 12

/-- Contribution of one favorite to the profile, in source order: genres,
tags, author (boosted), format.  `w = (book.rating ?? 3) / 5`. -/
def addBook (m : Profile) (b : Book) : Profile :=
  let w := (b.rating.getD 3) / 5
  let m1 := (b.genres.getD []).foldl
    (fun m g => profileAdd m ("genre:" ++ normVal g) w) m
  let m2 := (b.tags.getD []).foldl
    (fun m t => profileAdd m ("tag:" ++ normVal t) w) m1
  let m3 := profileAdd m2 ("author:" ++ normVal b.author) (w * AUTHOR_BOOST)
  profileAdd m3 ("format:" ++ b.format.str) (w * (1 / 2))

/-- `RecommendationsService.buildProfile`. -/
def buildProfile (favorites : List Book) : Profile :=
  favorites.foldl addBook []

/-- The candidate feature-key list built at the top of `scoreBook` (a list,
not a set: the source never deduplicates it). -/
def bookFeatures (v : ItemView) : List String :=
  ((v.genres.getD []).map (fun g => "genre:" ++ normVal g)) ++
  ((v.tags.getD []).map (fun t => "tag:" ++ normVal t)) ++
  ["author:" ++ normVal (v.author.getD "")] ++
  ["format:" ++ (v.format.getD BookFormat.other).str]

/-- `f.split(':').slice(1).join(':')`: strip the kind tag from a feature
key.  Splitting on `:` and re-joining everything after the first part with
`:` yields exactly the suffix after the first colon (empty if there is
none). -/
def dekind (f : String) : String :=
  String.mk ((f.data.dropWhile (fun c => !(c = ':'))).drop 1)

/-- First-occurrence deduplication, the semantics of `[...new Set(l)]`. -/
def dedupFirst (l : List String) : List String :=
  l.foldl (fun acc x => if x ∈ acc then acc else acc ++ [x]) []

/-- Sum of squares of all profile weights:
`[...profile.values()].reduce((s, w) => s + w * w, 0)`.  The source's
`magnitude` is the real square root of this. -/
def profMagSq (p : Profile) : ℚ :=
  (p.map (fun e => e.2)).foldl (fun s w => s + w * w) 0

/-- Result of `scoreBook` without the `isExternal` flag.  The source stores
`score = magnitude > 0 ? dot / magnitude : 0`; we carry the exact pair
`(dot, magSq)` with `score = if 0 < magSq then dot / √magSq else 0`
(`√magSq > 0 ↔ magSq > 0` since `magSq` is a sum of squares). -/
structure Scored where
  dot : ℚ
  magSq : ℚ
  matched : List String
deriving DecidableEq, Repr

/-- The dot-product loop of `scoreBook`: walk the candidate's feature list
(with multiplicity), adding the profile weight of every feature whose weight
is `> 0` and recording its de-kinded value. -/
def dotLoop (p : Profile) (fs : List String) : ℚ × List String :=
  fs.foldl (fun acc f =>
    let w := (mapGet p f).getD 0
    if 0 < w then (acc.1 + w, acc.2 ++ [dekind f]) else acc) (0, [])

/-- `RecommendationsService.scoreBook` (minus the `isExternal` flag). -/
def scoreBook (v : ItemView) (p : Profile) : Scored :=
  let dm := dotLoop p (bookFeatures v)
  { dot := dm.1, magSq := profMagSq p, matched := dedupFirst dm.2 }

/-- An element of the result list (`ScoredBook` interface): the wrapped item
is `Book | Partial<Book>`, modelled as a sum. -/
structure ScoredBook where
  book : Book ⊕ PartialBook
  dot : ℚ
  magSq : ℚ
  matched : List String
  isExternal : Bool
deriving DecidableEq, Repr

/-- `(s.book.title ?? '')` as used by the external dedup keys. -/
def ScoredBook.titleKey (s : ScoredBook) : String :=
  match s.book with
  | .inl b => b.title
  | .inr p => p.title.getD ""

/-- The identifier of a result item: the catalog `id` for a local item;
external `Partial<Book>`s never carry one. -/
def ScoredBook.ident (s : ScoredBook) : Option String :=
  match s.book with
  | .inl b => some b.id
  | .inr _ => none

/-- Exact-arithmetic form of the filter `s.score > 0` used on scored
candidates: `dot / √magSq > 0` iff both `dot` and `magSq` are positive
(see `scorePos_iff`). -/
def scorePos (dot magSq : ℚ) : Bool :=
  decide (0 < magSq) && decide (0 < dot)

/-- Index-element pairs `(n, l[0]), (n+1, l[1]), …`, used to model the
stability of `Array.prototype.sort`. -/
def addIdx : ℕ → List α → List (ℕ × α)
  | _, [] => []
  | n, x :: xs => (n, x) :: addIdx (n + 1) xs

/-- The linear order "key descending, original index ascending" on
index-element pairs.  Sorting by it is exactly the stable descending sort
`.sort((a, b) => b.key - a.key)` of the source. -/
def keyRel (key : α → ℚ) (x y : ℕ × α) : Prop :=
  key y.2 < key x.2 ∨ (key x.2 = key y.2 ∧ x.1 ≤ y.1)

instance (key : α → ℚ) : DecidableRel (keyRel key) := fun x y => by
  unfold keyRel; infer_instance

instance (key : α → ℚ) : IsTotal (ℕ × α) (keyRel key) where
  total := by
    intro x y
    rcases lt_trichotomy (key x.2) (key y.2) with h | h | h
    · exact Or.inr (Or.inl h)
    · rcases Nat.le_total x.1 y.1 with h' | h'
      · exact Or.inl (Or.inr ⟨h, h'⟩)
      · exact Or.inr (Or.inr ⟨h.symm, h'⟩)
    · exact Or.inl (Or.inl h)

instance (key : α → ℚ) : IsTrans (ℕ × α) (keyRel key) where
  trans := by
    rintro x y z (h₁ | ⟨h₁, h₁'⟩) (h₂ | ⟨h₂, h₂'⟩)
    · exact Or.inl (h₂.trans h₁)
    · exact Or.inl (by rw [← h₂]; exact h₁)
    · exact Or.inl (by rw [h₁]; exact h₂)
    · exact Or.inr ⟨h₁.trans h₂, h₁'.trans h₂'⟩

/-- Stable sort in descending order of a rational key, the model of
`.sort((a, b) => b.key - a.key)` (stable per ES2019). -/
def stableSortBy (key : α → ℚ) (l : List α) : List α :=
  ((addIdx 0 l).insertionSort (keyRel key)).map (fun e => e.2)

/-- `GoogleBooksService.searchByGenre`: queries the external source for one
genre and absorbs any failure into an empty list (the try/catch around the
HTTP call). -/
def searchByGenre (ext : String → Except Unit (List Volume)) (genre : String) :
    List PartialBook :=
  match ext genre with
  | .error _ => []
  | .ok vols => vols.map mapVolume

/-- The body of the per-genre loop of `fetchExternalSuggestions`: skip items
colliding with the catalog by truthy ISBN or truthy lower-cased title, score
the rest, keep positive scores, mark them external.  (The source's own
try/catch around this loop is unreachable because `searchByGenre` already
absorbs failures.) -/
def externalForGenre (p : Profile) (existingIsbns existingTitles : List String)
    (ext : String → Except Unit (List Volume)) (genre : String) :
    List ScoredBook :=
  (searchByGenre ext genre).filterMap (fun book =>
    if truthy book.isbn ∧ (book.isbn.getD "") ∈ existingIsbns then none
    else if truthy book.title ∧ jsToLower (book.title.getD "") ∈ existingTitles then none
    else
      let sc := scoreBook book.toView p
      if scorePos sc.dot sc.magSq then
        some { book := .inr book, dot := sc.dot, magSq := sc.magSq,
               matched := sc.matched, isExternal := true }
      else none)

/-- The title-based deduplication of external suggestions (`seen` set, first
occurrence kept), keyed by `(s.book.title ?? '').toLowerCase()`. -/
def dedupByTitle (l : List ScoredBook) : List ScoredBook :=
  (l.foldl (fun (acc : List ScoredBook × List String) s =>
      let key := jsToLower s.titleKey
      if key ∈ acc.2 then acc else (acc.1 ++ [s], acc.2 ++ [key])) ([], [])).1

/-- `RecommendationsService.fetchExternalSuggestions`. -/
def fetchExternalSuggestions (p : Profile) (existingBooks : List Book)
    (ext : String → Except Unit (List Volume)) : List ScoredBook :=
  let topGenres :=
    ((stableSortBy (fun e => e.2)
        (p.filter (fun e => jsStartsWith e.1 "genre:"))).take 3).map
      (fun e => jsDrop e.1 6)
  if topGenres.isEmpty then [] else
  let existingIsbns := (existingBooks.filterMap (fun b => b.isbn)).filter
    (fun s => decide ¬s = "")
  let existingTitles := existingBooks.map (fun b => jsToLower b.title)
  let suggestions := topGenres.flatMap
    (externalForGenre p existingIsbns existingTitles ext)
  (stableSortBy (fun s => s.dot) (dedupByTitle suggestions)).take 6

/-- The favorite predicate of step 1 of `getRecommendations`:
`b.rating !== null && b.rating >= MIN_RATING && b.status === FINISHED`. -/
def isFavorite (b : Book) : Bool :=
  match b.rating with
  | none => false
  | some r => decide (MIN_RATING ≤ r) && decide (b.status = ReadingStatus.finished)

/-- The local-candidate predicate of step 3:
status `unread` or `in-progress`. -/
def isCandidate (b : Book) : Bool :=
  decide (b.status = ReadingStatus.unread) ||
  decide (b.status = ReadingStatus.in_progress)

/-- A local candidate scored and tagged `isExternal := false`. -/
def localScore (p : Profile) (b : Book) : ScoredBook :=
  let sc := scoreBook b.toView p
  { book := .inl b, dot := sc.dot, magSq := sc.magSq,
    matched := sc.matched, isExternal := false }

/-- `RecommendationsService.getRecommendations`, as a function of the catalog
snapshot (`booksRepo.find()`) and the external source behaviour. -/
def getRecommendations (allBooks : List Book)
    (ext : String → Except Unit (List Volume)) : List ScoredBook :=
  let favorites := allBooks.filter isFavorite
  if favorites.isEmpty then [] else
  let profile := buildProfile favorites
  let localCandidates := allBooks.filter isCandidate
  let localScored :=
    (stableSortBy (fun s => s.dot)
      ((localCandidates.map (localScore profile)).filter
        (fun s => scorePos s.dot s.magSq))).take TOP_N
  if localScored.length < MIN_LOCAL_CANDIDATES then
    let externalBooks := fetchExternalSuggestions profile allBooks ext
    (stableSortBy (fun s => s.dot) (localScored ++ externalBooks)).take TOP_N
  else localScored

/-! ### Spec-side definitions (for refinement claims)

These two definitions follow the words of the claims, not the source; they
exist to be compared with the source-derived definitions above. -/

/-- The dot product as claim C1 states it: the sum of the profile weights of
the item's **distinct** feature keys, each distinct key counted at most once
(the candidate vector is binary). -/
def specDot (v : ItemView) (p : Profile) : ℚ :=
  ((dedupFirst (bookFeatures v)).map (fun f => (mapGet p f).getD 0)).sum

/-- The weight claim C2 says one favorite adds to feature key `k`:
`w = rating/5` (default `3/5`), `+w` per genre/tag occurrence,
`+w * AUTHOR_BOOST` for the author, `+w * 0.5` for the format, every string
value lower-cased and trimmed before composing the key. -/
def specContrib (b : Book) (k : String) : ℚ :=
  let w := (b.rating.getD 3) / 5
  w * (((b.genres.getD []).filter (fun g => "genre:" ++ normVal g = k)).length : ℚ) +
  w * (((b.tags.getD []).filter (fun t => "tag:" ++ normVal t = k)).length : ℚ) +
  (if "author:" ++ normVal b.author = k then w * AUTHOR_BOOST else 0) +
  (if "format:" ++ normVal b.format.str = k then w * (1 / 2) else 0)

/-- Whether one favorite generates feature key `k` at all (determines the
key set of the profile claim C2 describes). -/
def specTouches (b : Book) (k : String) : Bool :=
  ((b.genres.getD []).any (fun g => "genre:" ++ normVal g = k)) ||
  ((b.tags.getD []).any (fun t => "tag:" ++ normVal t = k)) ||
  decide ("author:" ++ normVal b.author = k) ||
  decide ("format:" ++ normVal b.format.str = k)

/-! ### Concrete inputs for witnesses and counterexamples -/

/-- A profile with the single feature `genre:fantasy`, weight 1. -/
def profC1 : Profile := [("genre:fantasy", 1)]

/-- A candidate whose genre list contains the same normalised genre twice. -/
def viewC1 : ItemView :=
  { genres := some ["fantasy", "Fantasy"], tags := none,
    author := some "x", format := some .epub }

/-- A finished five-star fantasy favorite. -/
def favBook : Book :=
  { id := "f1", title := "Dune", author := "A", isbn := none,
    genres := some ["fantasy"], tags := none, status := .finished,
    rating := some 5, format := .epub }

/-- An external volume with a fresh title, matching the favorite's genre. -/
def volPlain : Volume :=
  { title := some "External", authors := none,
    categories := some ["Fantasy"], industryIdentifiers := none }

/-- External source returning `volPlain` for the genre "fantasy". -/
def extC3 : String → Except Unit (List Volume) :=
  fun g => if g = "fantasy" then .ok [volPlain] else .ok []

/-- An abandoned catalog book whose title is the empty string. -/
def blankBook : Book :=
  { id := "b2", title := "", author := "X", isbn := none,
    genres := none, tags := none, status := .abandoned,
    rating := none, format := .epub }

/-- An external volume whose title is the empty string (falsy in JS). -/
def volBlankTitle : Volume :=
  { title := some "", authors := none,
    categories := some ["Fantasy"], industryIdentifiers := none }

/-- External source returning `volBlankTitle` for the genre "fantasy". -/
def extC4 : String → Except Unit (List Volume) :=
  fun g => if g = "fantasy" then .ok [volBlankTitle] else .ok []

/-- An unrated unread book (satisfies no favorite predicate). -/
def unreadBook : Book :=
  { id := "u1", title := "T", author := "a", isbn := none,
    genres := some ["scifi"], tags := none, status := .unread,
    rating := none, format := .pdf }

/-- External source that always succeeds with no results. -/
def extOk : String → Except Unit (List Volume) := fun _ => .ok []

/-- External source that always raises. -/
def extErr : String → Except Unit (List Volume) := fun _ => .error ()

/-- The profile of spec §8 scenario 1:
`{genre:fantasy: 1, author:a: 1.5, format:epub: 0.5}`. -/
def profC9 : Profile :=
  [("genre:fantasy", 1), ("author:a", 3 / 2), ("format:epub", 1 / 2)]

/-- A candidate matching every feature of `profC9`. -/
def viewC9 : ItemView :=
  { genres := some ["fantasy"], tags := none,
    author := some "a", format := some .epub }

/-- A profile whose only feature is `format:other` with positive weight. -/
def profC10 : Profile := [("format:other", 1 / 2)]

/-- An item with no format field and no overlap with `profC10` besides the
defaulted format. -/
def viewC10 : ItemView :=
  { genres := none, tags := none, author := some "zz", format := none }

/-- The `Partial<Book>` that `mapVolume` produces from `volBlankTitle`. -/
def blankPartial : PartialBook :=
  { title := some "", author := none, genres := some ["Fantasy"],
    isbn := none }

/-- The single output item of the C4 counterexample run. -/
def blankResult : ScoredBook :=
  { book := Sum.inr blankPartial, dot := 1, magSq := 7 / 2,
    matched := ["fantasy"], isExternal := true }

/-! ### Lemmas about the JS-Map model -/

theorem find?_map_replace (m : Profile) (k : String) (v : ℚ)
    (h : m.any (fun e => e.1 = k) = true) :
    (m.map (fun e => if e.1 = k then (k, v) else e)).find? (fun e => e.1 = k)
      = some (k, v) := by
  induction m with
  | nil => simp at h
  | cons e m ih =>
    by_cases he : e.1 = k
    · simp [List.find?_cons, he]
    · simp only [List.any_cons, Bool.or_eq_true, decide_eq_true_eq] at h
      simp [List.find?_cons, he, ih (h.resolve_left he)]

theorem find?_map_replace_ne (m : Profile) {k k' : String} (v : ℚ)
    (h : k' ≠ k) :
    (m.map (fun e => if e.1 = k then (k, v) else e)).find? (fun e => e.1 = k')
      = m.find? (fun e => e.1 = k') := by
  have h1 : ¬(k = k') := fun hc => h hc.symm
  induction m with
  | nil => rfl
  | cons e m ih =>
    by_cases he : e.1 = k
    · have h2 : ¬(e.1 = k') := by rw [he]; exact h1
      simp [List.find?_cons, he, h1, h2, ih]
    · by_cases he' : e.1 = k'
      · simp [List.find?_cons, he, he', h, h1]
      · simp [List.find?_cons, he, he', ih]

theorem mapGet_mapSet_self (m : Profile) (k : String) (v : ℚ) :
    mapGet (mapSet m k v) k = some v := by
  unfold mapGet mapSet
  by_cases h : m.any (fun e => e.1 = k) = true
  · rw [if_pos h, find?_map_replace m k v h, Option.map_some']
  · rw [if_neg h, List.find?_append]
    have hm : m.find? (fun e => decide (e.1 = k)) = none := by
      rw [List.find?_eq_none]
      intro x hx hpx
      exact h (List.any_eq_true.mpr ⟨x, hx, hpx⟩)
    simp [hm, List.find?_cons]

theorem mapGet_mapSet_ne (m : Profile) {k k' : String} (v : ℚ)
    (h : k' ≠ k) :
    mapGet (mapSet m k v) k' = mapGet m k' := by
  unfold mapGet mapSet
  split
  · rw [find?_map_replace_ne m v h]
  · rw [List.find?_append]
    have h1 : ¬(k = k') := fun hc => h hc.symm
    have : [(k, v)].find? (fun e => decide (e.1 = k')) = none := by
      simp [List.find?_cons, h1]
    rw [this]
    cases m.find? (fun e => decide (e.1 = k')) <;> rfl

theorem mapGet_profileAdd_self (m : Profile) (k : String) (w : ℚ) :
    mapGet (profileAdd m k w) k = some ((mapGet m k).getD 0 + w) :=
  mapGet_mapSet_self m k _

theorem mapGet_profileAdd_ne (m : Profile) {k k' : String} (w : ℚ)
    (h : k' ≠ k) :
    mapGet (profileAdd m k w) k' = mapGet m k' :=
  mapGet_mapSet_ne m _ h

theorem getD_profileAdd (m : Profile) (k : String) (w : ℚ) (k' : String) :
    (mapGet (profileAdd m k w) k').getD 0
      = (mapGet m k').getD 0 + (if k' = k then w else 0) := by
  by_cases h : k' = k
  · subst h
    rw [mapGet_profileAdd_self, if_pos rfl, Option.getD_some]
  · rw [mapGet_profileAdd_ne m w h, if_neg h, add_zero]

theorem isSome_profileAdd (m : Profile) (k : String) (w : ℚ) (k' : String) :
    (mapGet (profileAdd m k w) k').isSome
      = ((mapGet m k').isSome || decide (k' = k)) := by
  by_cases h : k' = k
  · subst h
    simp [mapGet_profileAdd_self]
  · simp [mapGet_profileAdd_ne m w h, h]

theorem getD_foldl_profileAdd {β : Type} (keyf : β → String) (w : ℚ)
    (l : List β) (m : Profile) (k : String) :
    (mapGet (l.foldl (fun m x => profileAdd m (keyf x) w) m) k).getD 0
      = (mapGet m k).getD 0
        + w * (((l.filter (fun x => keyf x = k)).length : ℚ)) := by
  induction l generalizing m with
  | nil => simp
  | cons x l ih =>
    simp only [List.foldl_cons]
    rw [ih, getD_profileAdd m (keyf x) w k]
    by_cases hx : keyf x = k
    · have hx' : k = keyf x := hx.symm
      simp only [List.filter_cons, hx, List.length_cons, if_pos hx',
        decide_eq_true_eq, if_true]
      push_cast
      ring
    · have hx' : ¬(k = keyf x) := fun hc => hx hc.symm
      simp only [List.filter_cons, hx, if_neg hx', decide_eq_true_eq,
        if_false, add_zero]

theorem isSome_foldl_profileAdd {β : Type} (keyf : β → String) (w : ℚ)
    (l : List β) (m : Profile) (k : String) :
    (mapGet (l.foldl (fun m x => profileAdd m (keyf x) w) m) k).isSome
      = ((mapGet m k).isSome || l.any (fun x => keyf x = k)) := by
  induction l generalizing m with
  | nil => simp
  | cons x l ih =>
    simp only [List.foldl_cons, List.any_cons]
    rw [ih, isSome_profileAdd]
    by_cases hx : keyf x = k
    · have d1 : decide (k = keyf x) = true := decide_eq_true hx.symm
      have d2 : decide (keyf x = k) = true := decide_eq_true hx
      simp [d1, d2]
    · have d1 : decide (k = keyf x) = false :=
        decide_eq_false (fun hc => hx hc.symm)
      have d2 : decide (keyf x = k) = false := decide_eq_false hx
      simp [d1, d2, Bool.or_assoc]

theorem normVal_format_str (f : BookFormat) : normVal f.str = f.str := by
  cases f <;> decide

theorem if_comm_eq (k s : String) (c : ℚ) :
    (if k = s then c else 0) = (if s = k then c else 0) := by
  by_cases h : k = s
  · rw [if_pos h, if_pos h.symm]
  · rw [if_neg h, if_neg (fun hc => h hc.symm)]

theorem getD_addBook (m : Profile) (b : Book) (k : String) :
    (mapGet (addBook m b) k).getD 0
      = (mapGet m k).getD 0 + specContrib b k := by
  simp only [addBook, specContrib]
  rw [getD_profileAdd, getD_profileAdd,
    getD_foldl_profileAdd (fun t => "tag:" ++ normVal t),
    getD_foldl_profileAdd (fun g => "genre:" ++ normVal g),
    normVal_format_str]
  by_cases ha : k = "author:" ++ normVal b.author <;>
    by_cases hf : k = "format:" ++ b.format.str
  · rw [if_pos ha, if_pos hf, if_pos ha.symm, if_pos hf.symm]
    ring
  · rw [if_pos ha, if_neg hf, if_pos ha.symm,
      if_neg (fun hc => hf hc.symm)]
    ring
  · rw [if_neg ha, if_pos hf, if_neg (fun hc => ha hc.symm), if_pos hf.symm]
    ring
  · rw [if_neg ha, if_neg hf, if_neg (fun hc => ha hc.symm),
      if_neg (fun hc => hf hc.symm)]
    ring

theorem decide_comm (a b : String) : decide (a = b) = decide (b = a) := by
  by_cases h : a = b
  · rw [decide_eq_true h, decide_eq_true h.symm]
  · rw [decide_eq_false h, decide_eq_false (fun hc => h hc.symm)]

theorem isSome_addBook (m : Profile) (b : Book) (k : String) :
    (mapGet (addBook m b) k).isSome
      = ((mapGet m k).isSome || specTouches b k) := by
  simp only [addBook, specTouches]
  rw [isSome_profileAdd, isSome_profileAdd,
    isSome_foldl_profileAdd (fun t => "tag:" ++ normVal t),
    isSome_foldl_profileAdd (fun g => "genre:" ++ normVal g),
    normVal_format_str,
    decide_comm k ("author:" ++ normVal b.author),
    decide_comm k ("format:" ++ b.format.str)]
  simp [Bool.or_assoc]

theorem getD_foldl_addBook (favs : List Book) (m : Profile) (k : String) :
    (mapGet (favs.foldl addBook m) k).getD 0
      = (mapGet m k).getD 0 + (favs.map (fun b => specContrib b k)).sum := by
  induction favs generalizing m with
  | nil => simp
  | cons b favs ih =>
    simp only [List.foldl_cons, List.map_cons, List.sum_cons]
    rw [ih, getD_addBook]
    ring

theorem isSome_foldl_addBook (favs : List Book) (m : Profile) (k : String) :
    (mapGet (favs.foldl addBook m) k).isSome
      = ((mapGet m k).isSome || favs.any (fun b => specTouches b k)) := by
  induction favs generalizing m with
  | nil => simp
  | cons b favs ih =>
    simp only [List.foldl_cons, List.any_cons]
    rw [ih, isSome_addBook]
    simp [Bool.or_assoc]

theorem mapGet_nil (k : String) : mapGet [] k = none := rfl

/-- C2: `buildProfile` returns exactly the map described by the claim: the
weight of every feature key `k` is the additive accumulation, over all
favorites, of `w = rating/5` (default `3/5`) per genre/tag occurrence whose
lower-cased trimmed value composes `k`, `w * AUTHOR_BOOST` for the author
key and `w * 0.5` for the format key; and a key is present in the map
exactly when some favorite generates it. -/
theorem C2_buildProfile_exact (favs : List Book) (k : String) :
    (mapGet (buildProfile favs) k).getD 0
      = (favs.map (fun b => specContrib b k)).sum
    ∧ ((mapGet (buildProfile favs) k).isSome
      ↔ ∃ b ∈ favs, specTouches b k = true) := by
  constructor
  · have h := getD_foldl_addBook favs [] k
    rw [mapGet_nil] at h
    simpa using h
  · have h := isSome_foldl_addBook favs [] k
    rw [mapGet_nil] at h
    rw [buildProfile, h]
    simp [List.any_eq_true]

/-! ### Closed forms for the scorer -/

theorem dotLoop_go (p : Profile) (fs : List String) (a : ℚ) (l : List String) :
    fs.foldl (fun acc f =>
      let w := (mapGet p f).getD 0
      if 0 < w then (acc.1 + w, acc.2 ++ [dekind f]) else acc) (a, l)
    = (a + ((fs.filter (fun f => decide (0 < (mapGet p f).getD 0))).map
        (fun f => (mapGet p f).getD 0)).sum,
       l ++ (fs.filter (fun f => decide (0 < (mapGet p f).getD 0))).map dekind) := by
  induction fs generalizing a l with
  | nil => simp
  | cons f fs ih =>
    simp only [List.foldl_cons, List.filter_cons]
    by_cases hw : 0 < (mapGet p f).getD 0
    · simp only [if_pos hw, decide_eq_true hw, if_true, ih, List.map_cons,
        List.sum_cons, List.append_assoc, List.cons_append, List.nil_append]
      rw [Prod.mk.injEq]
      exact ⟨by ring, rfl⟩
    · simp only [if_neg hw, decide_eq_false hw, Bool.false_eq_true, if_false, ih]

theorem scoreBook_dot (v : ItemView) (p : Profile) :
    (scoreBook v p).dot
      = (((bookFeatures v).filter
          (fun f => decide (0 < (mapGet p f).getD 0))).map
        (fun f => (mapGet p f).getD 0)).sum := by
  simp [scoreBook, dotLoop, dotLoop_go]

theorem scoreBook_matched (v : ItemView) (p : Profile) :
    (scoreBook v p).matched
      = dedupFirst (((bookFeatures v).filter
          (fun f => decide (0 < (mapGet p f).getD 0))).map dekind) := by
  simp [scoreBook, dotLoop, dotLoop_go]

theorem scoreBook_magSq (v : ItemView) (p : Profile) :
    (scoreBook v p).magSq = profMagSq p := rfl

theorem foldl_add_sq (l : List ℚ) (a : ℚ) :
    l.foldl (fun s w => s + w * w) a = a + (l.map (fun w => w * w)).sum := by
  induction l generalizing a with
  | nil => simp
  | cons w l ih =>
    simp only [List.foldl_cons, List.map_cons, List.sum_cons, ih]
    ring

theorem profMagSq_eq (p : Profile) :
    profMagSq p = (p.map (fun e => e.2 * e.2)).sum := by
  unfold profMagSq
  rw [foldl_add_sq, zero_add, List.map_map]
  rfl

theorem profMagSq_nonneg (p : Profile) : 0 ≤ profMagSq p := by
  rw [profMagSq_eq]
  apply List.sum_nonneg
  intro x hx
  obtain ⟨e, -, rfl⟩ := List.mem_map.mp hx
  exact mul_self_nonneg _

theorem sum_pos_of_mem (l : List ℚ) (h0 : ∀ y ∈ l, 0 ≤ y) (x : ℚ)
    (hx : x ∈ l) (hpos : 0 < x) : 0 < l.sum := by
  induction l with
  | nil => cases hx
  | cons y ys ih =>
    rw [List.sum_cons]
    rcases List.mem_cons.mp hx with h | h
    · subst h
      have : 0 ≤ ys.sum := List.sum_nonneg (fun z hz => h0 z (List.mem_cons_of_mem _ hz))
      linarith
    · have hy : 0 ≤ y := h0 y (List.mem_cons_self _ _)
      have := ih (fun z hz => h0 z (List.mem_cons_of_mem _ hz)) h
      linarith

theorem profMagSq_pos_of_mem (p : Profile) (e : String × ℚ) (he : e ∈ p)
    (hz : e.2 ≠ 0) : 0 < profMagSq p := by
  rw [profMagSq_eq]
  refine sum_pos_of_mem _ ?_ (e.2 * e.2) ?_ ?_
  · intro x hx
    obtain ⟨a, -, rfl⟩ := List.mem_map.mp hx
    exact mul_self_nonneg _
  · exact List.mem_map.mpr ⟨e, he, rfl⟩
  · rcases lt_or_gt_of_ne hz with h | h
    · exact mul_pos_of_neg_of_neg h h
    · exact mul_pos h h

theorem mem_dedupFirst_go (l : List String) (acc : List String) (x : String) :
    x ∈ l.foldl (fun acc y => if y ∈ acc then acc else acc ++ [y]) acc
      ↔ x ∈ acc ∨ x ∈ l := by
  induction l generalizing acc with
  | nil => simp
  | cons y l ih =>
    simp only [List.foldl_cons]
    by_cases hy : y ∈ acc
    · rw [if_pos hy, ih]
      constructor
      · rintro (h | h)
        · exact Or.inl h
        · exact Or.inr (List.mem_cons_of_mem _ h)
      · rintro (h | h)
        · exact Or.inl h
        · rcases List.mem_cons.mp h with rfl | h
          · exact Or.inl hy
          · exact Or.inr h
    · rw [if_neg hy, ih]
      simp only [List.mem_append, List.mem_singleton, List.mem_cons]
      tauto

theorem mem_dedupFirst (l : List String) (x : String) :
    x ∈ dedupFirst l ↔ x ∈ l := by
  unfold dedupFirst
  rw [mem_dedupFirst_go]
  simp

/-! ### The exact real-valued score -/

theorem realScore_pos_iff (d m : ℚ) :
    ((0 : ℝ) < if 0 < m then (d : ℝ) / Real.sqrt (m : ℝ) else 0)
      ↔ (0 < m ∧ 0 < d) := by
  by_cases h : 0 < m
  · rw [if_pos h]
    have hs : (0 : ℝ) < Real.sqrt (m : ℝ) :=
      Real.sqrt_pos.mpr (by exact_mod_cast h)
    constructor
    · intro hp
      refine ⟨h, ?_⟩
      by_contra hd
      push_neg at hd
      have hd' : (d : ℝ) ≤ 0 := by exact_mod_cast hd
      have hnp : (d : ℝ) / Real.sqrt (m : ℝ) ≤ 0 :=
        div_nonpos_iff.mpr (Or.inr ⟨hd', hs.le⟩)
      linarith
    · rintro ⟨-, hd⟩
      exact div_pos (by exact_mod_cast hd) hs
  · rw [if_neg h]
    exact iff_of_false (lt_irrefl 0) (fun hc => h hc.1)

theorem scorePos_iff (d m : ℚ) :
    scorePos d m = true
      ↔ ((0 : ℝ) < if 0 < m then (d : ℝ) / Real.sqrt (m : ℝ) else 0) := by
  rw [realScore_pos_iff]
  simp [scorePos, and_comm]

theorem mapGet_some_mem (p : Profile) (k : String) (w : ℚ)
    (h : mapGet p k = some w) : ∃ e ∈ p, e.1 = k ∧ e.2 = w := by
  unfold mapGet at h
  cases hf : p.find? (fun e => e.1 = k) with
  | none => rw [hf] at h; cases h
  | some e =>
    rw [hf, Option.map_some'] at h
    have hp := List.find?_some hf
    exact ⟨e, List.mem_of_find?_eq_some hf, of_decide_eq_true hp, by injection h⟩

theorem mapGet_of_nodup (p : Profile) (hnd : (p.map (fun e => e.1)).Nodup)
    (e : String × ℚ) (he : e ∈ p) : mapGet p e.1 = some e.2 := by
  induction p with
  | nil => cases he
  | cons a p ih =>
    rw [List.map_cons, List.nodup_cons] at hnd
    rcases List.mem_cons.mp he with rfl | he'
    · simp [mapGet, List.find?_cons]
    · have hne : a.1 ≠ e.1 := by
        intro hc
        exact hnd.1 (hc ▸ List.mem_map.mpr ⟨e, he', rfl⟩)
      have : mapGet p e.1 = some e.2 := ih hnd.2 he'
      simpa [mapGet, List.find?_cons, decide_eq_false hne] using this

/-- C1: at the failing input — profile `{genre:fantasy ↦ 1}` and an item
whose genre list contains the same normalised genre twice ("fantasy" and
"Fantasy") — the implementation returns score 2 because it walks the
candidate's feature list with multiplicity, while the claimed formula (each
distinct feature key counted at most once, i.e. a binary candidate vector,
here dot 1 over norm 1) gives 1.  This contradicts the source file's own
header comment, which describes `bookVector[feature]` as binary. -/
theorem C1_duplicate_feature_code_bug :
    ((if 0 < (scoreBook viewC1 profC1).magSq then
        ((scoreBook viewC1 profC1).dot : ℝ)
          / Real.sqrt (((scoreBook viewC1 profC1).magSq : ℚ) : ℝ) else 0) = 2)
    ∧ ((if 0 < profMagSq profC1 then
        (specDot viewC1 profC1 : ℝ)
          / Real.sqrt ((profMagSq profC1 : ℚ) : ℝ) else 0) = 1) := by
  have h1 : (scoreBook viewC1 profC1).dot = 2 :=
    of_decide_eq_true (by with_unfolding_all rfl)
  have h2 : (scoreBook viewC1 profC1).magSq = 1 :=
    of_decide_eq_true (by with_unfolding_all rfl)
  have h3 : specDot viewC1 profC1 = 1 :=
    of_decide_eq_true (by with_unfolding_all rfl)
  have h4 : profMagSq profC1 = 1 :=
    of_decide_eq_true (by with_unfolding_all rfl)
  rw [h1, h2, h3, h4]
  norm_num [Real.sqrt_one]

/-- C9 (counterexample): the profile of spec §8 scenario 1 and a candidate
matching every one of its feature keys.  The claim "the score does not
exceed 1" fails: the score is `3 / √3.5 ≈ 1.60 > 1`. -/
theorem C9_counterexample :
    (∀ e ∈ profC9, e.1 ∈ bookFeatures viewC9) ∧ profC9 ≠ []
    ∧ (1 : ℝ) < (if 0 < (scoreBook viewC9 profC9).magSq then
        ((scoreBook viewC9 profC9).dot : ℝ)
          / Real.sqrt (((scoreBook viewC9 profC9).magSq : ℚ) : ℝ) else 0) := by
  refine ⟨of_decide_eq_true (by with_unfolding_all rfl), by simp [profC9], ?_⟩
  have h1 : (scoreBook viewC9 profC9).dot = 3 :=
    of_decide_eq_true (by with_unfolding_all rfl)
  have h2 : (scoreBook viewC9 profC9).magSq = 7 / 2 :=
    of_decide_eq_true (by with_unfolding_all rfl)
  rw [h1, h2, if_pos (by norm_num)]
  have hc : (((7 : ℚ) / 2 : ℚ) : ℝ) = 7 / 2 := by push_cast; ring
  have hc3 : (((3 : ℚ)) : ℝ) = 3 := by push_cast; ring
  rw [hc, hc3]
  have hpos : (0 : ℝ) < Real.sqrt (7 / 2) :=
    Real.sqrt_pos.mpr (by norm_num)
  rw [one_lt_div hpos]
  rw [Real.sqrt_lt' (by norm_num : (0 : ℝ) < 3)]
  norm_num

theorem sum_sq_le_sq_sum (l : List ℚ) (h : ∀ x ∈ l, 0 ≤ x) :
    (l.map (fun w => w * w)).sum ≤ l.sum * l.sum := by
  induction l with
  | nil => simp
  | cons w ws ih =>
    simp only [List.map_cons, List.sum_cons]
    have hw : 0 ≤ w := h w (List.mem_cons_self _ _)
    have hws : ∀ x ∈ ws, 0 ≤ x := fun x hx => h x (List.mem_cons_of_mem _ hx)
    have hsum : 0 ≤ ws.sum := List.sum_nonneg hws
    have := ih hws
    nlinarith

/-- C9 (amended): for a profile with distinct keys and strictly positive
weights, a candidate whose duplicate-free feature-key list includes every
profile key scores exactly `‖w‖₁ / ‖w‖₂`, which is **at least** 1 (not at
most 1 as the claim states). -/
theorem C9_full_match_at_least_one (p : Profile) (v : ItemView)
    (hnd : (p.map (fun e => e.1)).Nodup)
    (hpos : ∀ e ∈ p, 0 < e.2)
    (hcov : ∀ e ∈ p, e.1 ∈ bookFeatures v)
    (hfnd : (bookFeatures v).Nodup)
    (hne : p ≠ []) :
    (scoreBook v p).dot = (p.map (fun e => e.2)).sum
    ∧ (1 : ℝ) ≤ (if 0 < (scoreBook v p).magSq then
        ((scoreBook v p).dot : ℝ)
          / Real.sqrt (((scoreBook v p).magSq : ℚ) : ℝ) else 0) := by
  have hmem : ∀ f, f ∈ (bookFeatures v).filter
      (fun f => decide (0 < (mapGet p f).getD 0))
        ↔ f ∈ p.map (fun e => e.1) := by
    intro f
    constructor
    · intro hf
      obtain ⟨-, hpos'⟩ := List.mem_filter.mp hf
      have hpos'' : 0 < (mapGet p f).getD 0 := of_decide_eq_true hpos'
      cases hg : mapGet p f with
      | none => rw [hg] at hpos''; exact absurd hpos'' (by norm_num)
      | some w =>
        obtain ⟨e, hep, hek, -⟩ := mapGet_some_mem p f w hg
        exact List.mem_map.mpr ⟨e, hep, hek⟩
    · intro hf
      obtain ⟨e, hep, rfl⟩ := List.mem_map.mp hf
      refine List.mem_filter.mpr ⟨hcov e hep, ?_⟩
      rw [mapGet_of_nodup p hnd e hep, Option.getD_some]
      exact decide_eq_true (hpos e hep)
  have hfilnd : ((bookFeatures v).filter
      (fun f => decide (0 < (mapGet p f).getD 0))).Nodup :=
    List.Nodup.sublist (List.filter_sublist _) hfnd
  have hknd : (p.map (fun e => e.1)).Nodup := hnd
  have hperm : ((bookFeatures v).filter
      (fun f => decide (0 < (mapGet p f).getD 0))).Perm
        (p.map (fun e => e.1)) :=
    (List.perm_ext_iff_of_nodup hfilnd hknd).mpr hmem
  have hdot : (scoreBook v p).dot = (p.map (fun e => e.2)).sum := by
    rw [scoreBook_dot]
    have h1 := (hperm.map (fun f => (mapGet p f).getD 0)).sum_eq
    rw [h1, List.map_map]
    congr 1
    refine List.map_congr_left ?_
    intro e hep
    show (mapGet p e.1).getD 0 = e.2
    rw [mapGet_of_nodup p hnd e hep, Option.getD_some]
  refine ⟨hdot, ?_⟩
  obtain ⟨e0, he0⟩ : ∃ e0, e0 ∈ p := by
    cases p with
    | nil => exact absurd rfl hne
    | cons a p => exact ⟨a, List.mem_cons_self _ _⟩
  have hmag : 0 < profMagSq p :=
    profMagSq_pos_of_mem p e0 he0 (ne_of_gt (hpos e0 he0))
  have hmag' : 0 < (scoreBook v p).magSq := by rw [scoreBook_magSq]; exact hmag
  rw [if_pos hmag']
  have hdotpos : 0 ≤ (scoreBook v p).dot := by
    rw [hdot]
    refine List.sum_nonneg ?_
    intro x hx
    obtain ⟨e, hep, rfl⟩ := List.mem_map.mp hx
    exact (hpos e hep).le
  have hsq : profMagSq p ≤ (scoreBook v p).dot * (scoreBook v p).dot := by
    rw [profMagSq_eq, hdot]
    have h := sum_sq_le_sq_sum (p.map (fun e => e.2))
      (by intro x hx; obtain ⟨e, hep, rfl⟩ := List.mem_map.mp hx
          exact (hpos e hep).le)
    rw [List.map_map] at h
    exact h
  have hsqrt : Real.sqrt (((scoreBook v p).magSq : ℚ) : ℝ)
      ≤ ((scoreBook v p).dot : ℝ) := by
    have hc : (((scoreBook v p).magSq : ℚ) : ℝ)
        ≤ ((scoreBook v p).dot : ℝ) ^ 2 := by
      rw [sq]
      rw [scoreBook_magSq]
      exact_mod_cast hsq
    calc Real.sqrt (((scoreBook v p).magSq : ℚ) : ℝ)
        ≤ Real.sqrt (((scoreBook v p).dot : ℝ) ^ 2) := Real.sqrt_le_sqrt hc
      _ = ((scoreBook v p).dot : ℝ) := Real.sqrt_sq (by exact_mod_cast hdotpos)
  have hsp : (0 : ℝ) < Real.sqrt (((scoreBook v p).magSq : ℚ) : ℝ) :=
    Real.sqrt_pos.mpr (by exact_mod_cast hmag')
  rw [one_le_div hsp]
  exact hsqrt

/-- C9 (witness): the amended theorem applied to the concrete full-match
input of the counterexample. -/
theorem C9_full_match_witness :
    (profC9 ≠ [] ∧ (∀ e ∈ profC9, 0 < e.2)
      ∧ (∀ e ∈ profC9, e.1 ∈ bookFeatures viewC9))
    ∧ ((scoreBook viewC9 profC9).dot = (profC9.map (fun e => e.2)).sum
      ∧ (1 : ℝ) ≤ (if 0 < (scoreBook viewC9 profC9).magSq then
          ((scoreBook viewC9 profC9).dot : ℝ)
            / Real.sqrt (((scoreBook viewC9 profC9).magSq : ℚ) : ℝ) else 0)) :=
  ⟨⟨by simp [profC9], of_decide_eq_true (by with_unfolding_all rfl),
      of_decide_eq_true (by with_unfolding_all rfl)⟩,
    C9_full_match_at_least_one profC9 viewC9
      (of_decide_eq_true (by with_unfolding_all rfl))
      (of_decide_eq_true (by with_unfolding_all rfl))
      (of_decide_eq_true (by with_unfolding_all rfl))
      (of_decide_eq_true (by with_unfolding_all rfl))
      (by simp [profC9])⟩

/-- C10: an item whose format field is absent is scored as having format
`other`: whenever the profile carries `format:other` with positive weight,
such an item receives a strictly positive score and "other" among its
matched features — and the Google Books volume mapper never sets a format,
so every externally sourced item is such an item. -/
theorem C10_missing_format_scores (p : Profile) (v : ItemView) (w : ℚ)
    (hv : v.format = none)
    (hw : mapGet p "format:other" = some w) (hwpos : 0 < w) :
    ((0 : ℝ) < if 0 < (scoreBook v p).magSq then
        ((scoreBook v p).dot : ℝ)
          / Real.sqrt (((scoreBook v p).magSq : ℚ) : ℝ) else 0)
    ∧ "other" ∈ (scoreBook v p).matched
    ∧ (∀ vol : Volume, (mapVolume vol).toView.format = none) := by
  have hfm : "format:other" ∈ bookFeatures v := by
    simp [bookFeatures, hv, BookFormat.str]
  have hgetD : (mapGet p "format:other").getD 0 = w := by
    rw [hw, Option.getD_some]
  have hfil : "format:other" ∈ (bookFeatures v).filter
      (fun f => decide (0 < (mapGet p f).getD 0)) := by
    rw [List.mem_filter]
    exact ⟨hfm, by rw [hgetD]; exact decide_eq_true hwpos⟩
  obtain ⟨e, hep, -, hew⟩ := mapGet_some_mem p _ w hw
  have hmag : 0 < profMagSq p :=
    profMagSq_pos_of_mem p e hep (by rw [hew]; exact ne_of_gt hwpos)
  have hdot : 0 < (scoreBook v p).dot := by
    rw [scoreBook_dot]
    refine sum_pos_of_mem _ ?_ w ?_ hwpos
    · intro x hx
      obtain ⟨f, hf, rfl⟩ := List.mem_map.mp hx
      exact (of_decide_eq_true (List.mem_filter.mp hf).2).le
    · exact List.mem_map.mpr ⟨"format:other", hfil, hgetD⟩
  refine ⟨?_, ?_, fun vol => rfl⟩
  · exact (realScore_pos_iff _ _).mpr ⟨by rw [scoreBook_magSq]; exact hmag, hdot⟩
  · rw [scoreBook_matched, mem_dedupFirst]
    exact List.mem_map.mpr ⟨"format:other", hfil, by decide⟩

/-- C10 (witness): the theorem applied to a profile whose only key is
`format:other` and an item with absent format and no other overlap. -/
theorem C10_missing_format_witness :
    (viewC10.format = none ∧ mapGet profC10 "format:other" = some (1 / 2)
      ∧ (0 : ℚ) < 1 / 2)
    ∧ (((0 : ℝ) < if 0 < (scoreBook viewC10 profC10).magSq then
        ((scoreBook viewC10 profC10).dot : ℝ)
          / Real.sqrt (((scoreBook viewC10 profC10).magSq : ℚ) : ℝ) else 0)
      ∧ "other" ∈ (scoreBook viewC10 profC10).matched
      ∧ (∀ vol : Volume, (mapVolume vol).toView.format = none)) :=
  ⟨⟨rfl, of_decide_eq_true (by with_unfolding_all rfl), by norm_num⟩,
    C10_missing_format_scores profC10 viewC10 (1 / 2) rfl
      (of_decide_eq_true (by with_unfolding_all rfl)) (by norm_num)⟩

/-! ### The stable sort: permutation, sortedness, stability -/

theorem addIdx_map_snd (n : ℕ) (l : List α) :
    (addIdx n l).map (fun e => e.2) = l := by
  induction l generalizing n with
  | nil => rfl
  | cons x xs ih => simp [addIdx, ih]

theorem mem_addIdx (l : List α) (n : ℕ) (e : ℕ × α) :
    e ∈ addIdx n l ↔ ∃ j, e.1 = n + j ∧ l[j]? = some e.2 := by
  induction l generalizing n with
  | nil => simp [addIdx]
  | cons x xs ih =>
    simp only [addIdx, List.mem_cons, ih]
    constructor
    · rintro (rfl | ⟨j, hj, hget⟩)
      · exact ⟨0, by simp⟩
      · exact ⟨j + 1, by omega, by simpa using hget⟩
    · rintro ⟨j, hj, hget⟩
      cases j with
      | zero =>
        simp only [List.getElem?_cons_zero, Option.some.injEq] at hget
        left
        rw [Prod.ext_iff]
        exact ⟨by omega, hget.symm⟩
      | succ j =>
        right
        refine ⟨j, by omega, ?_⟩
        simpa using hget

theorem stableSortBy_perm (key : α → ℚ) (l : List α) :
    (stableSortBy key l).Perm l := by
  unfold stableSortBy
  have h := (List.perm_insertionSort (keyRel key) (addIdx 0 l)).map
    (fun e => e.2)
  rwa [addIdx_map_snd] at h

theorem mem_stableSortBy (key : α → ℚ) (l : List α) (x : α) :
    x ∈ stableSortBy key l ↔ x ∈ l :=
  (stableSortBy_perm key l).mem_iff

theorem stableSortBy_sorted (key : α → ℚ) (l : List α) :
    List.Pairwise (fun a b => key b ≤ key a) (stableSortBy key l) := by
  unfold stableSortBy
  rw [List.pairwise_map]
  have hs := List.sorted_insertionSort (keyRel key) (addIdx 0 l)
  refine hs.imp ?_
  rintro x y (h | ⟨h, -⟩)
  · exact h.le
  · exact le_of_eq h.symm

theorem idx_ge_of_mem_append_right {l₁ l₂ : List α} {f : α → Bool}
    (h₁ : ∀ x ∈ l₁, f x = false) (e : ℕ × α)
    (he : e ∈ addIdx 0 (l₁ ++ l₂)) (hf : f e.2 = true) :
    l₁.length ≤ e.1 := by
  obtain ⟨j, hj, hget⟩ := (mem_addIdx _ _ _).mp he
  rw [Nat.zero_add] at hj
  subst hj
  by_contra hlt
  push_neg at hlt
  rw [List.getElem?_append_left hlt] at hget
  obtain ⟨hh, heq⟩ := List.getElem?_eq_some.mp hget
  have : e.2 ∈ l₁ := heq ▸ List.getElem_mem hh
  rw [h₁ _ this] at hf
  cases hf

theorem mem_right_of_idx_ge {l₁ l₂ : List α} (e : ℕ × α)
    (he : e ∈ addIdx 0 (l₁ ++ l₂)) (hge : l₁.length ≤ e.1) : e.2 ∈ l₂ := by
  obtain ⟨j, hj, hget⟩ := (mem_addIdx _ _ _).mp he
  rw [Nat.zero_add] at hj
  subst hj
  rw [List.getElem?_append_right hge] at hget
  obtain ⟨hh, heq⟩ := List.getElem?_eq_some.mp hget
  exact heq ▸ List.getElem_mem hh

/-- Stability of the modelled `Array.prototype.sort`: if `l₁ ++ l₂` is sorted
by a key and every element of `l₁` fails a flag that every element of `l₂`
satisfies, then in the sorted output a flagged element is never followed by
an unflagged one of equal key. -/
theorem stableSortBy_pairwise_partition (key : α → ℚ) (f : α → Bool)
    (l₁ l₂ : List α) (h₁ : ∀ x ∈ l₁, f x = false)
    (h₂ : ∀ x ∈ l₂, f x = true) :
    List.Pairwise (fun a b => key a = key b → f a = true → f b = true)
      (stableSortBy key (l₁ ++ l₂)) := by
  unfold stableSortBy
  rw [List.pairwise_map]
  have hs := List.sorted_insertionSort (keyRel key) (addIdx 0 (l₁ ++ l₂))
  have hperm := List.perm_insertionSort (keyRel key) (addIdx 0 (l₁ ++ l₂))
  refine List.Pairwise.imp_of_mem ?_ hs
  intro a b ha hb hr hkey hfa
  have ha' : a ∈ addIdx 0 (l₁ ++ l₂) := hperm.subset ha
  have hb' : b ∈ addIdx 0 (l₁ ++ l₂) := hperm.subset hb
  have hab : a.1 ≤ b.1 := by
    rcases hr with h | ⟨-, h⟩
    · rw [hkey] at h
      exact absurd h (lt_irrefl _)
    · exact h
  have hge : l₁.length ≤ a.1 := idx_ge_of_mem_append_right h₁ a ha' hfa
  exact h₂ _ (mem_right_of_idx_ge b hb' (le_trans hge hab))

/-! ### Membership tracing through the pipeline -/

theorem mem_externalForGenre {p : Profile} {isbns titles : List String}
    {ext : String → Except Unit (List Volume)} {genre : String}
    {s : ScoredBook} (h : s ∈ externalForGenre p isbns titles ext genre) :
    ∃ pb : PartialBook,
      s = { book := Sum.inr pb, dot := (scoreBook pb.toView p).dot,
            magSq := (scoreBook pb.toView p).magSq,
            matched := (scoreBook pb.toView p).matched, isExternal := true }
      ∧ scorePos (scoreBook pb.toView p).dot (scoreBook pb.toView p).magSq = true
      ∧ ¬(truthy pb.isbn = true ∧ (pb.isbn.getD "") ∈ isbns)
      ∧ ¬(truthy pb.title = true ∧ jsToLower (pb.title.getD "") ∈ titles) := by
  unfold externalForGenre at h
  obtain ⟨pb, -, hf⟩ := List.mem_filterMap.mp h
  by_cases h1 : truthy pb.isbn = true ∧ (pb.isbn.getD "") ∈ isbns
  · rw [if_pos h1] at hf
    cases hf
  · rw [if_neg h1] at hf
    by_cases h2 : truthy pb.title = true ∧ jsToLower (pb.title.getD "") ∈ titles
    · rw [if_pos h2] at hf
      cases hf
    · rw [if_neg h2] at hf
      simp only at hf
      by_cases h3 : scorePos (scoreBook pb.toView p).dot
          (scoreBook pb.toView p).magSq = true
      · rw [if_pos h3] at hf
        obtain rfl := Option.some.inj hf
        exact ⟨pb, rfl, h3, h1, h2⟩
      · rw [if_neg h3] at hf
        cases hf

theorem mem_dedupByTitle_go {l : List ScoredBook}
    {acc : List ScoredBook × List String} {s : ScoredBook}
    (h : s ∈ (l.foldl (fun acc s =>
      let key := jsToLower s.titleKey
      if key ∈ acc.2 then acc else (acc.1 ++ [s], acc.2 ++ [key])) acc).1) :
    s ∈ acc.1 ∨ s ∈ l := by
  induction l generalizing acc with
  | nil => exact Or.inl h
  | cons x xs ih =>
    simp only [List.foldl_cons] at h
    by_cases hk : jsToLower x.titleKey ∈ acc.2
    · rw [if_pos hk] at h
      rcases ih h with h' | h'
      · exact Or.inl h'
      · exact Or.inr (List.mem_cons_of_mem _ h')
    · rw [if_neg hk] at h
      rcases ih h with h' | h'
      · rcases List.mem_append.mp h' with h'' | h''
        · exact Or.inl h''
        · rw [List.mem_singleton.mp h'']
          exact Or.inr (List.mem_cons_self _ _)
      · exact Or.inr (List.mem_cons_of_mem _ h')

theorem mem_dedupByTitle {l : List ScoredBook} {s : ScoredBook}
    (h : s ∈ dedupByTitle l) : s ∈ l := by
  unfold dedupByTitle at h
  rcases mem_dedupByTitle_go h with h' | h'
  · cases h'
  · exact h'

theorem mem_fetchExternalSuggestions {p : Profile} {books : List Book}
    {ext : String → Except Unit (List Volume)} {s : ScoredBook}
    (h : s ∈ fetchExternalSuggestions p books ext) :
    s.isExternal = true ∧ s.magSq = profMagSq p
    ∧ scorePos s.dot s.magSq = true
    ∧ ∃ pb : PartialBook, s.book = Sum.inr pb
      ∧ (∀ n, pb.isbn = some n → n ≠ "" → ∀ b ∈ books, b.isbn ≠ some n)
      ∧ (∀ t, pb.title = some t → t ≠ "" →
          ∀ b ∈ books, jsToLower t ≠ jsToLower b.title) := by
  simp only [fetchExternalSuggestions] at h
  split at h
  · cases h
  · have h' := mem_dedupByTitle ((mem_stableSortBy _ _ _).mp
      ((List.take_sublist _ _).subset h))
    obtain ⟨g, -, hg⟩ := List.mem_flatMap.mp h'
    obtain ⟨pb, rfl, hsp, hn1, hn2⟩ := mem_externalForGenre hg
    refine ⟨rfl, scoreBook_magSq pb.toView p, hsp, pb, rfl, ?_, ?_⟩
    · intro n hn hne b hb hbn
      refine hn1 ⟨?_, ?_⟩
      · unfold truthy
        rw [hn]
        exact decide_eq_true hne
      · rw [hn, Option.getD_some]
        refine List.mem_filter.mpr ⟨?_, decide_eq_true hne⟩
        exact List.mem_filterMap.mpr ⟨b, hb, hbn⟩
    · intro t ht hne b hb hbt
      refine hn2 ⟨?_, ?_⟩
      · unfold truthy
        rw [ht]
        exact decide_eq_true hne
      · rw [ht, Option.getD_some]
        exact List.mem_map.mpr ⟨b, hb, hbt.symm⟩

theorem mem_localPipeline {p : Profile} {cands : List Book} {s : ScoredBook}
    (h : s ∈ (stableSortBy (fun s => s.dot)
      ((cands.map (localScore p)).filter
        (fun s => scorePos s.dot s.magSq))).take TOP_N) :
    s.isExternal = false ∧ s.magSq = profMagSq p
    ∧ scorePos s.dot s.magSq = true
    ∧ ∃ b ∈ cands, s.book = Sum.inl b := by
  have h1 := (mem_stableSortBy _ _ _).mp ((List.take_sublist _ _).subset h)
  obtain ⟨hm, hsp⟩ := List.mem_filter.mp h1
  obtain ⟨b, hb, rfl⟩ := List.mem_map.mp hm
  exact ⟨rfl, scoreBook_magSq b.toView p, hsp, b, hb, rfl⟩

/-- C6: the recommendation list never holds more than `TOP_N = 12` items,
for every catalog snapshot and every behaviour of the external source. -/
theorem C6_output_at_most_top_n (books : List Book)
    (ext : String → Except Unit (List Volume)) :
    (getRecommendations books ext).length ≤ TOP_N := by
  simp only [getRecommendations]
  split
  · simp
  · split
    · rw [List.length_take]
      exact inf_le_left
    · rw [List.length_take]
      exact inf_le_left

/-- C7: with no favorite in the catalog (present rating `≥ MIN_RATING` and
status finished), `getRecommendations` returns the empty list for every
external-source behaviour — in particular it never queries the external
source, since the result does not depend on it. -/
theorem C7_cold_start (books : List Book)
    (h : books.filter isFavorite = []) :
    ∀ ext, getRecommendations books ext = [] := by
  intro ext
  simp [getRecommendations, h]

/-- C7 (witness): a catalog holding one unrated unread book. -/
theorem C7_cold_start_witness :
    [unreadBook].filter isFavorite = []
    ∧ getRecommendations [unreadBook] extOk = [] :=
  ⟨of_decide_eq_true (by with_unfolding_all rfl),
    C7_cold_start [unreadBook]
      (of_decide_eq_true (by with_unfolding_all rfl)) extOk⟩

/-- C8: a raising external source is indistinguishable from one returning no
results: replacing failures by empty answers, genre query by genre query,
leaves the whole recommendation result unchanged, so failures are absorbed
and the surviving local and non-failing external results are still
returned.  (The catalog read is an input here; only its failure could
propagate to the caller.) -/
theorem C8_external_failure_isolated (books : List Book)
    (ext ext' : String → Except Unit (List Volume))
    (h : ∀ g, ext g = ext' g ∨ (ext g = .error () ∧ ext' g = .ok [])) :
    getRecommendations books ext = getRecommendations books ext' := by
  have hs : ∀ g, searchByGenre ext g = searchByGenre ext' g := by
    intro g
    rcases h g with h' | ⟨h1, h2⟩
    · simp [searchByGenre, h']
    · simp [searchByGenre, h1, h2]
  have hef : ∀ p isbns titles g,
      externalForGenre p isbns titles ext g
        = externalForGenre p isbns titles ext' g := by
    intro p isbns titles g
    unfold externalForGenre
    rw [hs]
  have hef' : ∀ p isbns titles,
      externalForGenre p isbns titles ext
        = externalForGenre p isbns titles ext' :=
    fun p isbns titles => funext (hef p isbns titles)
  have hfe : ∀ p, fetchExternalSuggestions p books ext
      = fetchExternalSuggestions p books ext' := by
    intro p
    simp only [fetchExternalSuggestions, hef']
  simp only [getRecommendations, hfe]

/-- C8 (witness): an always-raising source yields the same output as an
always-empty one on a one-favorite catalog. -/
theorem C8_external_failure_witness :
    (∀ g, extErr g = extOk g ∨ (extErr g = .error () ∧ extOk g = .ok []))
    ∧ getRecommendations [favBook] extErr = getRecommendations [favBook] extOk :=
  ⟨fun _ => Or.inr ⟨rfl, rfl⟩,
    C8_external_failure_isolated [favBook] extErr extOk
      (fun _ => Or.inr ⟨rfl, rfl⟩)⟩

/-- C3 (counterexample): a catalog with one favorite and no unread or
in-progress item, and an external source answering the favorite's genre:
the engine does **not** return an empty list — it falls through to external
augmentation (the source has no "no candidates → return []" check). -/
theorem C3_counterexample :
    ([favBook].filter isFavorite ≠ [] ∧ [favBook].filter isCandidate = [])
    ∧ getRecommendations [favBook] extC3 ≠ [] :=
  ⟨⟨of_decide_eq_true (by with_unfolding_all rfl),
      of_decide_eq_true (by with_unfolding_all rfl)⟩,
    of_decide_eq_true (by with_unfolding_all rfl)⟩

/-- C3 (amended): with at least one favorite and no local candidate, the
result is the sorted, truncated external-suggestion list — every returned
item is external, and the list is empty exactly when augmentation yields
nothing. -/
theorem C3_no_candidates_goes_external (books : List Book)
    (ext : String → Except Unit (List Volume))
    (hfav : books.filter isFavorite ≠ [])
    (hcand : books.filter isCandidate = []) :
    getRecommendations books ext
      = (stableSortBy (fun s => s.dot)
          (fetchExternalSuggestions
            (buildProfile (books.filter isFavorite)) books ext)).take TOP_N
    ∧ ∀ s ∈ getRecommendations books ext, s.isExternal = true := by
  have hne : (books.filter isFavorite).isEmpty = false := by
    rw [List.isEmpty_eq_false]
    exact hfav
  have heq : getRecommendations books ext
      = (stableSortBy (fun s => s.dot)
          (fetchExternalSuggestions
            (buildProfile (books.filter isFavorite)) books ext)).take TOP_N := by
    simp [getRecommendations, hne, hcand, stableSortBy, addIdx, TOP_N,
      MIN_LOCAL_CANDIDATES]
  refine ⟨heq, ?_⟩
  intro s hs
  rw [heq] at hs
  have hs' := (mem_stableSortBy _ _ _).mp ((List.take_sublist _ _).subset hs)
  exact (mem_fetchExternalSuggestions hs').1

/-- C3 (witness): the amended theorem applied to the counterexample
catalog. -/
theorem C3_no_candidates_witness :
    ([favBook].filter isFavorite ≠ [] ∧ [favBook].filter isCandidate = [])
    ∧ (getRecommendations [favBook] extC3
        = (stableSortBy (fun s => s.dot)
            (fetchExternalSuggestions
              (buildProfile ([favBook].filter isFavorite)) [favBook]
              extC3)).take TOP_N
      ∧ ∀ s ∈ getRecommendations [favBook] extC3, s.isExternal = true) :=
  ⟨⟨of_decide_eq_true (by with_unfolding_all rfl),
      of_decide_eq_true (by with_unfolding_all rfl)⟩,
    C3_no_candidates_goes_external [favBook] extC3
      (of_decide_eq_true (by with_unfolding_all rfl))
      (of_decide_eq_true (by with_unfolding_all rfl))⟩

/-! ### The profile of a non-empty favorite set has positive magnitude -/

theorem isFavorite_spec (b : Book) :
    isFavorite b = true
      ↔ ∃ r, b.rating = some r ∧ MIN_RATING ≤ r
          ∧ b.status = ReadingStatus.finished := by
  unfold isFavorite
  cases hr : b.rating with
  | none => simp [hr]
  | some r => simp [hr]

theorem specContrib_nonneg (b : Book) (k : String)
    (hw : 0 ≤ b.rating.getD 3) : 0 ≤ specContrib b k := by
  unfold specContrib
  have h5 : 0 ≤ b.rating.getD 3 / 5 := by positivity
  have hg : (0 : ℚ) ≤ (((b.genres.getD []).filter
      (fun g => "genre:" ++ normVal g = k)).length : ℚ) := by positivity
  have ht : (0 : ℚ) ≤ (((b.tags.getD []).filter
      (fun t => "tag:" ++ normVal t = k)).length : ℚ) := by positivity
  have ha : (0 : ℚ) ≤ (if "author:" ++ normVal b.author = k
      then b.rating.getD 3 / 5 * AUTHOR_BOOST else 0) := by
    split
    · unfold AUTHOR_BOOST
      positivity
    · exact le_refl 0
  have hf : (0 : ℚ) ≤ (if "format:" ++ normVal b.format.str = k
      then b.rating.getD 3 / 5 * (1 / 2) else 0) := by
    split
    · positivity
    · exact le_refl 0
  have hgg : 0 ≤ b.rating.getD 3 / 5 * (((b.genres.getD []).filter
      (fun g => "genre:" ++ normVal g = k)).length : ℚ) := mul_nonneg h5 hg
  have htt : 0 ≤ b.rating.getD 3 / 5 * (((b.tags.getD []).filter
      (fun t => "tag:" ++ normVal t = k)).length : ℚ) := mul_nonneg h5 ht
  linarith

theorem specContrib_format_pos (b : Book) (r : ℚ)
    (hr : b.rating = some r) (hpos : 0 < r) :
    0 < specContrib b ("format:" ++ b.format.str) := by
  have hw : (0 : ℚ) < b.rating.getD 3 := by rw [hr]; exact hpos
  have h5 : 0 < b.rating.getD 3 / 5 := by positivity
  unfold specContrib
  have hg : (0 : ℚ) ≤ b.rating.getD 3 / 5 * (((b.genres.getD []).filter
      (fun g => "genre:" ++ normVal g = ("format:" ++ b.format.str))).length : ℚ) := by
    positivity
  have ht : (0 : ℚ) ≤ b.rating.getD 3 / 5 * (((b.tags.getD []).filter
      (fun t => "tag:" ++ normVal t = ("format:" ++ b.format.str))).length : ℚ) := by
    positivity
  have ha : (0 : ℚ) ≤ (if "author:" ++ normVal b.author = "format:" ++ b.format.str
      then b.rating.getD 3 / 5 * AUTHOR_BOOST else 0) := by
    split
    · unfold AUTHOR_BOOST
      positivity
    · exact le_refl 0
  have hf : (0 : ℚ) < (if "format:" ++ normVal b.format.str = "format:" ++ b.format.str
      then b.rating.getD 3 / 5 * (1 / 2) else 0) := by
    rw [normVal_format_str, if_pos rfl]
    positivity
  linarith

theorem profile_magSq_pos (books : List Book)
    (h : books.filter isFavorite ≠ []) :
    0 < profMagSq (buildProfile (books.filter isFavorite)) := by
  obtain ⟨b0, favs', hfavs⟩ : ∃ b0 favs',
      books.filter isFavorite = b0 :: favs' := by
    cases hc : books.filter isFavorite with
    | nil => exact absurd hc h
    | cons a l => exact ⟨a, l, rfl⟩
  have hmem : ∀ b ∈ books.filter isFavorite, isFavorite b = true :=
    fun b hb => (List.mem_filter.mp hb).2
  have hb0 : b0 ∈ books.filter isFavorite := by
    rw [hfavs]
    exact List.mem_cons_self _ _
  obtain ⟨r, hr, hrge, -⟩ := (isFavorite_spec b0).mp (hmem b0 hb0)
  have hrpos : 0 < r := lt_of_lt_of_le (by norm_num [MIN_RATING]) hrge
  set k0 := "format:" ++ b0.format.str
  have hsum : (mapGet (buildProfile (books.filter isFavorite)) k0).getD 0
      = ((books.filter isFavorite).map (fun b => specContrib b k0)).sum :=
    (C2_buildProfile_exact _ _).1
  have hpos : 0 < ((books.filter isFavorite).map
      (fun b => specContrib b k0)).sum := by
    refine sum_pos_of_mem _ ?_ (specContrib b0 k0) ?_ ?_
    · intro x hx
      obtain ⟨b, hb, rfl⟩ := List.mem_map.mp hx
      obtain ⟨r', hr', hrge', -⟩ := (isFavorite_spec b).mp (hmem b hb)
      refine specContrib_nonneg b k0 ?_
      rw [hr']
      exact le_trans (by norm_num [MIN_RATING]) hrge'
    · exact List.mem_map.mpr ⟨b0, hb0, rfl⟩
    · exact specContrib_format_pos b0 r hr hrpos
  cases hg : mapGet (buildProfile (books.filter isFavorite)) k0 with
  | none =>
    rw [hg, Option.getD_none] at hsum
    rw [← hsum] at hpos
    exact absurd hpos (lt_irrefl 0)
  | some w =>
    rw [hg, Option.getD_some] at hsum
    obtain ⟨e, he, -, hew⟩ := mapGet_some_mem _ _ _ hg
    refine profMagSq_pos_of_mem _ e he ?_
    rw [hew, hsum]
    exact ne_of_gt hpos

/-! ### Score comparisons at a common magnitude -/

theorem realScore_mono (m d1 d2 : ℚ) (h : d1 ≤ d2) :
    (if 0 < m then (d1 : ℝ) / Real.sqrt ((m : ℚ) : ℝ) else 0)
      ≤ (if 0 < m then (d2 : ℝ) / Real.sqrt ((m : ℚ) : ℝ) else 0) := by
  split
  · rename_i hm
    have hs : (0 : ℝ) < Real.sqrt ((m : ℚ) : ℝ) :=
      Real.sqrt_pos.mpr (by exact_mod_cast hm)
    rw [div_le_div_iff_of_pos_right hs]
    exact_mod_cast h
  · exact le_refl 0

theorem realScore_eq_dot_eq (m d1 d2 : ℚ) (hm : 0 < m)
    (h : (if 0 < m then (d1 : ℝ) / Real.sqrt ((m : ℚ) : ℝ) else 0)
      = (if 0 < m then (d2 : ℝ) / Real.sqrt ((m : ℚ) : ℝ) else 0)) :
    d1 = d2 := by
  rw [if_pos hm, if_pos hm] at h
  have hs : (0 : ℝ) < Real.sqrt ((m : ℚ) : ℝ) :=
    Real.sqrt_pos.mpr (by exact_mod_cast hm)
  have h1 : (d1 : ℝ) ≤ (d2 : ℝ) :=
    (div_le_div_iff_of_pos_right hs).mp (le_of_eq h)
  have h2 : (d2 : ℝ) ≤ (d1 : ℝ) :=
    (div_le_div_iff_of_pos_right hs).mp (le_of_eq h.symm)
  exact_mod_cast le_antisymm h1 h2

/-- Transfer of (dot-descending, dot-tie gives external-after-local) into
the exact real score ordering, over a list whose entries share one positive
magnitude. -/
theorem pairwise_realScore (M : ℚ) (hM : 0 < M) (l : List ScoredBook)
    (hmag : ∀ x ∈ l, x.magSq = M)
    (h : List.Pairwise (fun a b => b.dot ≤ a.dot
        ∧ (a.dot = b.dot → a.isExternal = true → b.isExternal = true)) l) :
    List.Pairwise (fun a b =>
      (if 0 < b.magSq then (b.dot : ℝ) / Real.sqrt ((b.magSq : ℚ) : ℝ) else 0)
        ≤ (if 0 < a.magSq then (a.dot : ℝ) / Real.sqrt ((a.magSq : ℚ) : ℝ) else 0)
      ∧ ((if 0 < a.magSq then (a.dot : ℝ) / Real.sqrt ((a.magSq : ℚ) : ℝ) else 0)
          = (if 0 < b.magSq then (b.dot : ℝ) / Real.sqrt ((b.magSq : ℚ) : ℝ) else 0)
        → a.isExternal = true → b.isExternal = true)) l := by
  refine h.imp_of_mem ?_
  rintro a b ha hb ⟨hdot, htie⟩
  constructor
  · rw [hmag a ha, hmag b hb]
    exact realScore_mono M _ _ hdot
  · intro heq hax
    rw [hmag a ha, hmag b hb] at heq
    exact htie (realScore_eq_dot_eq M _ _ hM heq) hax

/-- C5: the output of `getRecommendations` is sorted by score — the exact
value `dot / √magSq`, zero on a zero-magnitude profile — in descending
order, and whenever two items have exactly equal scores, an external item
never precedes a local one: the locals are concatenated first and the sort
is stable. -/
theorem C5_sorted_desc_ties_local_first (books : List Book)
    (ext : String → Except Unit (List Volume)) :
    List.Pairwise (fun a b =>
      (if 0 < b.magSq then (b.dot : ℝ) / Real.sqrt ((b.magSq : ℚ) : ℝ) else 0)
        ≤ (if 0 < a.magSq then (a.dot : ℝ) / Real.sqrt ((a.magSq : ℚ) : ℝ) else 0)
      ∧ ((if 0 < a.magSq then (a.dot : ℝ) / Real.sqrt ((a.magSq : ℚ) : ℝ) else 0)
          = (if 0 < b.magSq then (b.dot : ℝ) / Real.sqrt ((b.magSq : ℚ) : ℝ) else 0)
        → a.isExternal = true → b.isExternal = true))
      (getRecommendations books ext) := by
  simp only [getRecommendations]
  split
  · exact List.Pairwise.nil
  · rename_i hfav
    rw [Bool.not_eq_true, List.isEmpty_eq_false] at hfav
    have hM := profile_magSq_pos books hfav
    split
    · -- external augmentation branch
      refine pairwise_realScore _ hM _ ?_ ?_
      · intro x hx
        have hx' := (mem_stableSortBy _ _ _).mp
          ((List.take_sublist _ _).subset hx)
        rcases List.mem_append.mp hx' with h' | h'
        · exact (mem_localPipeline h').2.1
        · exact (mem_fetchExternalSuggestions h').2.1
      · have hls : ∀ x ∈ (stableSortBy (fun s : ScoredBook => s.dot)
            (((books.filter isCandidate).map
              (localScore (buildProfile (books.filter isFavorite)))).filter
                (fun s => scorePos s.dot s.magSq))).take TOP_N,
            x.isExternal = false := fun x hx => (mem_localPipeline hx).1
        have hext : ∀ x ∈ fetchExternalSuggestions
            (buildProfile (books.filter isFavorite)) books ext,
            x.isExternal = true :=
          fun x hx => (mem_fetchExternalSuggestions hx).1
        have hsorted := stableSortBy_sorted (fun s : ScoredBook => s.dot)
          (((stableSortBy (fun s : ScoredBook => s.dot)
            (((books.filter isCandidate).map
              (localScore (buildProfile (books.filter isFavorite)))).filter
                (fun s => scorePos s.dot s.magSq))).take TOP_N)
            ++ fetchExternalSuggestions
              (buildProfile (books.filter isFavorite)) books ext)
        have hstable := stableSortBy_pairwise_partition
          (fun s : ScoredBook => s.dot) (fun s => s.isExternal)
          ((stableSortBy (fun s : ScoredBook => s.dot)
            (((books.filter isCandidate).map
              (localScore (buildProfile (books.filter isFavorite)))).filter
                (fun s => scorePos s.dot s.magSq))).take TOP_N)
          (fetchExternalSuggestions
            (buildProfile (books.filter isFavorite)) books ext) hls hext
        exact (hsorted.and hstable).sublist (List.take_sublist _ _)
    · -- local-only branch
      refine pairwise_realScore _ hM _ ?_ ?_
      · intro x hx
        exact (mem_localPipeline hx).2.1
      · have hsorted := (stableSortBy_sorted (fun s : ScoredBook => s.dot)
          (((books.filter isCandidate).map
            (localScore (buildProfile (books.filter isFavorite)))).filter
              (fun s => scorePos s.dot s.magSq))).sublist
          (List.take_sublist TOP_N _)
        refine hsorted.imp_of_mem ?_
        intro a b ha hb hdot
        refine ⟨hdot, fun _ hax => ?_⟩
        have := (mem_localPipeline ha).1
        rw [this] at hax
        cases hax

/-! ### Distinctness of identifiers in the output -/

theorem ident_symm {x y : ScoredBook}
    (h : ∀ i, x.ident = some i → y.ident ≠ some i) :
    ∀ i, y.ident = some i → x.ident ≠ some i := by
  intro i hyi hxi
  exact h i hxi hyi

theorem pairwise_ident_localPipeline (p : Profile) (cands : List Book)
    (hcnd : (cands.map (fun b => b.id)).Nodup) :
    List.Pairwise (fun a b => ∀ i, a.ident = some i → b.ident ≠ some i)
      ((stableSortBy (fun s : ScoredBook => s.dot)
        ((cands.map (localScore p)).filter
          (fun s => scorePos s.dot s.magSq))).take TOP_N) := by
  have h0 : List.Pairwise (fun a b : String => a ≠ b)
      (cands.map (fun b => b.id)) := hcnd
  have h1 : List.Pairwise (fun a b : Book => a.id ≠ b.id) cands :=
    List.pairwise_map.mp h0
  have h2 : List.Pairwise
      (fun a b => ∀ i, a.ident = some i → b.ident ≠ some i)
      (cands.map (localScore p)) := by
    rw [List.pairwise_map]
    refine h1.imp ?_
    intro a b hne i hai hbi
    have hai' : some a.id = some i := hai
    have hbi' : some b.id = some i := hbi
    exact hne ((Option.some.inj hai').trans (Option.some.inj hbi').symm)
  have h3 : List.Pairwise
      (fun a b => ∀ i, a.ident = some i → b.ident ≠ some i)
      ((cands.map (localScore p)).filter
        (fun s => scorePos s.dot s.magSq)) :=
    h2.sublist (List.filter_sublist _)
  have h4 := ((stableSortBy_perm (fun s : ScoredBook => s.dot) _).pairwise_iff
    (fun h => ident_symm h)).mpr h3
  exact h4.sublist (List.take_sublist _ _)

theorem pairwise_ident_merge (ls extList : List ScoredBook)
    (hls : List.Pairwise
      (fun a b => ∀ i, a.ident = some i → b.ident ≠ some i) ls)
    (hext : ∀ x ∈ extList, x.ident = none) :
    List.Pairwise (fun a b => ∀ i, a.ident = some i → b.ident ≠ some i)
      ((stableSortBy (fun s : ScoredBook => s.dot) (ls ++ extList)).take
        TOP_N) := by
  have hE : List.Pairwise
      (fun a b => ∀ i, a.ident = some i → b.ident ≠ some i) extList := by
    refine List.pairwise_of_forall_mem_list ?_
    intro a ha b hb i hai
    rw [hext a ha] at hai
    cases hai
  have hcross : ∀ a ∈ ls, ∀ b ∈ extList,
      ∀ i, a.ident = some i → b.ident ≠ some i := by
    intro a ha b hb i hai hbi
    rw [hext b hb] at hbi
    cases hbi
  have happ := List.pairwise_append.mpr ⟨hls, hE, hcross⟩
  have hs := ((stableSortBy_perm (fun s : ScoredBook => s.dot) _).pairwise_iff
    (fun h => ident_symm h)).mpr happ
  exact hs.sublist (List.take_sublist _ _)

/-- C4 (amended): no two items of the output share an identifier — local
items carry their distinct catalog ids (assuming the snapshot's ids are
distinct, as database primary keys are) and external items carry none — and
no external output item has a **non-empty** ISBN equal to a catalog item's
ISBN, or a **non-empty** title case-insensitively equal to a catalog item's
title.  (The non-emptiness provisos are forced by the counterexample: the
JS truthiness guards skip the collision checks for empty strings.) -/
theorem C4_no_duplicates (books : List Book)
    (ext : String → Except Unit (List Volume))
    (hids : (books.map (fun b => b.id)).Nodup) :
    List.Pairwise (fun a b => ∀ i, a.ident = some i → b.ident ≠ some i)
      (getRecommendations books ext)
    ∧ ∀ s ∈ getRecommendations books ext, s.isExternal = true →
        ∃ pb : PartialBook, s.book = Sum.inr pb
        ∧ (∀ n, pb.isbn = some n → n ≠ "" → ∀ b ∈ books, b.isbn ≠ some n)
        ∧ (∀ t, pb.title = some t → t ≠ "" →
            ∀ b ∈ books, jsToLower t ≠ jsToLower b.title) := by
  have hcnd : ((books.filter isCandidate).map (fun b => b.id)).Nodup :=
    List.Nodup.sublist ((List.filter_sublist books).map _) hids
  constructor
  · simp only [getRecommendations]
    split
    · exact List.Pairwise.nil
    · split
      · refine pairwise_ident_merge _ _
          (pairwise_ident_localPipeline _ _ hcnd) ?_
        intro x hx
        obtain ⟨-, -, -, pb, hbook, -, -⟩ := mem_fetchExternalSuggestions hx
        simp [ScoredBook.ident, hbook]
      · exact pairwise_ident_localPipeline _ _ hcnd
  · intro s hs hsx
    simp only [getRecommendations] at hs
    split at hs
    · cases hs
    · split at hs
      · have hs' := (mem_stableSortBy _ _ _).mp
          ((List.take_sublist _ _).subset hs)
        rcases List.mem_append.mp hs' with h' | h'
        · rw [(mem_localPipeline h').1] at hsx
          cases hsx
        · obtain ⟨-, -, -, pb, hbook, hn1, hn2⟩ :=
            mem_fetchExternalSuggestions h'
          exact ⟨pb, hbook, hn1, hn2⟩
      · rw [(mem_localPipeline hs).1] at hsx
        cases hsx

/-- C4 (counterexample): with a catalog containing an abandoned book titled
`""` and an external volume titled `""` matching the favorite's genre, the
external item reaches the output although it shares the (empty,
case-insensitively equal) title with a catalog item — the JS truthiness
guard `book.title && …` skips the dedup check for empty titles. -/
theorem C4_counterexample :
    getRecommendations [favBook, blankBook] extC4 = [blankResult]
    ∧ blankResult.isExternal = true ∧ blankPartial.title = some ""
    ∧ blankBook ∈ [favBook, blankBook] ∧ blankBook.title = ""
    ∧ jsToLower "" = jsToLower blankBook.title :=
  ⟨of_decide_eq_true (by with_unfolding_all rfl),
    rfl, rfl, by simp, rfl, rfl⟩

/-- C4 (witness): the amended theorem applied to the counterexample catalog
(whose ids are distinct). -/
theorem C4_no_duplicates_witness :
    (([favBook, blankBook].map (fun b => b.id)).Nodup)
    ∧ (List.Pairwise (fun a b => ∀ i, a.ident = some i → b.ident ≠ some i)
        (getRecommendations [favBook, blankBook] extC4)
      ∧ ∀ s ∈ getRecommendations [favBook, blankBook] extC4,
          s.isExternal = true →
          ∃ pb : PartialBook, s.book = Sum.inr pb
          ∧ (∀ n, pb.isbn = some n → n ≠ "" →
              ∀ b ∈ [favBook, blankBook], b.isbn ≠ some n)
          ∧ (∀ t, pb.title = some t → t ≠ "" →
              ∀ b ∈ [favBook, blankBook],
                jsToLower t ≠ jsToLower b.title)) :=
  ⟨of_decide_eq_true (by with_unfolding_all rfl),
    C4_no_duplicates [favBook, blankBook] extC4
      (of_decide_eq_true (by with_unfolding_all rfl))⟩

end EbookRec
